import Mathlib

/-!
Verification of the video-trailer portal server (`server.js` and the
`part_000` variant of the same file).

The JavaScript source is shallowly embedded.  JS strings are Lean
`String`s; JS `||` on strings (where the empty string is falsy) is
`jsOr`; request fields that may be absent are `Option String`; the
remote Supabase record/blob store is modelled by explicit store
states plus boolean failure flags, and the calls a handler makes are
recorded in an explicit trace.  The `slugify` library is external to
the repository, so handlers take its output (the normalized base
token of the title) as an input.
-/

namespace VideoPortal

/-- JS `a || b` specialised to strings: the empty string is falsy. -/
def jsOr (a b : String) : String := if a = "" then b else a

/-- JS `String.prototype.trim`, over the ASCII whitespace the
application can meet (space, tab, CR, LF). -/
def jsTrim (s : String) : String :=
  ⟨((s.data.dropWhile Char.isWhitespace).reverse.dropWhile Char.isWhitespace).reverse⟩

/-- Little-endian decimal digit characters of `n`, with explicit fuel
so that the kernel can evaluate the definition. -/
def decChars : Nat → Nat → List Char
  | 0, _ => []
  | f + 1, n =>
    if n < 10 then [Nat.digitChar n]
    else Nat.digitChar (n % 10) :: decChars f (n / 10)

/-- JS number-to-string conversion of a nonnegative integer, as used by
the template literal in the slug loop. -/
def natStr (n : Nat) : String := ⟨(decChars (n + 1) n).reverse⟩

/-- Value of a little-endian decimal digit character list. -/
def decVal : List Char → Nat
  | [] => 0
  | c :: cs => (c.toNat - 48) + 10 * decVal cs

lemma digitChar_toNat {d : Nat} (h : d < 10) : (Nat.digitChar d).toNat - 48 = d := by
  interval_cases d <;> rfl

lemma decVal_decChars : ∀ f n, n < f → decVal (decChars f n) = n := by
  intro f
  induction f with
  | zero => intro n h; omega
  | succ f ih =>
    intro n h
    by_cases h10 : n < 10
    · simp [decChars, h10, decVal, digitChar_toNat h10]
    · have hn : 0 < n := by omega
      have hdiv : n / 10 < n := Nat.div_lt_self hn (by omega)
      have hf : n / 10 < f := by omega
      have hm : n % 10 < 10 := Nat.mod_lt n (by omega)
      simp only [decChars, if_neg h10, decVal, digitChar_toNat hm, ih _ hf]
      omega

lemma natStr_injective : Function.Injective natStr := by
  intro a b h
  have hd : (decChars (a + 1) a).reverse = (decChars (b + 1) b).reverse :=
    congrArg String.data h
  have hl := List.reverse_injective hd
  have ha := decVal_decChars (a + 1) a (Nat.lt_succ_self a)
  have hb := decVal_decChars (b + 1) b (Nat.lt_succ_self b)
  rw [hl] at ha
  omega

lemma decChars_ne_nil (n : Nat) : decChars (n + 1) n ≠ [] := by
  by_cases h : n < 10 <;> simp [decChars, h]

lemma natStr_ne_empty (n : Nat) : natStr n ≠ "" := by
  intro h
  have hd : (decChars (n + 1) n).reverse = [] := congrArg String.data h
  exact decChars_ne_nil n (by simpa using hd)

/-- The probe candidates of the slug loop body: the template literal
appending a hyphen and the counter to the base token. -/
def cand (base : String) (i : Nat) : String := base ++ "-" ++ natStr i

lemma cand_inj (base : String) : Function.Injective (cand base) := by
  intro a b h
  apply natStr_injective
  have hd := congrArg String.data h
  simp only [cand, String.data_append, List.append_assoc] at hd
  have := List.append_cancel_left (List.append_cancel_left hd)
  exact String.ext this

lemma cand_ne_base (base : String) (i : Nat) : cand base i ≠ base := by
  intro h
  have hd := congrArg String.data h
  simp only [cand, String.data_append] at hd
  have hlen := congrArg List.length hd
  simp only [List.length_append] at hlen
  have hpos : 0 < (natStr i).data.length := by
    cases hc : (natStr i).data with
    | nil =>
      exact absurd (String.ext hc) (natStr_ne_empty i)
    | cons c cs => simp
  simp at hlen
  omega

/-- The `while (exists)` body of the slug loop in
`app.post("/admin/upload")`, with explicit fuel.  `taken` is the set
of slugs for which the existence probe `getVideoBySlug` reports a
record. -/
def allocLoop (base : String) (taken : List String) : Nat → Nat → Option String
  | 0, _ => none
  | f + 1, i =>
    if cand base i ∈ taken then allocLoop base taken f (i + 1)
    else some (cand base i)

/-- The whole slug loop: first probe the base token, then `base-2`,
`base-3`, …; the fuel `taken.length + 1` is shown sufficient below. -/
def allocOpt (base : String) (taken : List String) : Option String :=
  if base ∈ taken then allocLoop base taken (taken.length + 1) 2 else some base

/-- The slug the loop assigns (total form of `allocOpt`). -/
def allocate (base : String) (taken : List String) : String :=
  (allocOpt base taken).getD base

/-- Position `k` of the probe sequence of the loop: the base token,
then `base-2`, `base-3`, …. -/
def slugSeq (base : String) : Nat → String
  | 0 => base
  | k + 1 => cand base (k + 2)

lemma exists_free_index (base : String) (taken : List String) :
    ∃ i, 2 ≤ i ∧ i ≤ taken.length + 2 ∧ cand base i ∉ taken := by
  by_contra hcon
  push_neg at hcon
  have hsub : (Finset.Icc 2 (taken.length + 2)).image (cand base) ⊆ taken.toFinset := by
    intro s hs
    simp only [Finset.mem_image, Finset.mem_Icc] at hs
    obtain ⟨i, ⟨h1, h2⟩, rfl⟩ := hs
    exact List.mem_toFinset.2 (hcon i h1 h2)
  have hcard := Finset.card_le_card hsub
  have himg := Finset.card_image_of_injective (Finset.Icc 2 (taken.length + 2)) (cand_inj base)
  have hIcc : (Finset.Icc 2 (taken.length + 2)).card = taken.length + 1 := by
    rw [Nat.card_Icc]; omega
  have htf := taken.toFinset_card_le
  omega

lemma allocLoop_eq (base : String) (taken : List String) :
    ∀ (f i j : Nat), i ≤ j → j < i + f → cand base j ∉ taken →
      (∀ k, i ≤ k → k < j → cand base k ∈ taken) →
      allocLoop base taken f i = some (cand base j) := by
  intro f
  induction f with
  | zero => intro i j h1 h2 h3 h4; omega
  | succ f ih =>
    intro i j h1 h2 h3 h4
    by_cases hi : cand base i ∈ taken
    · have hij : i ≠ j := fun e => h3 (e ▸ hi)
      simp only [allocLoop, if_pos hi]
      exact ih (i + 1) j (by omega) (by omega) h3 (fun k hk1 hk2 => h4 k (by omega) hk2)
    · have hij : j = i := by
        by_contra hne
        exact hi (h4 i (le_refl i) (by omega))
      simp only [allocLoop, if_neg hi, hij]

/-- Correctness of the slug loop: the assigned slug is the first
element of the probe sequence not reported as taken. -/
lemma allocate_first_free (base : String) (taken : List String) :
    ∃ k, allocate base taken = slugSeq base k ∧ slugSeq base k ∉ taken ∧
      ∀ j, j < k → slugSeq base j ∈ taken := by
  by_cases hb : base ∈ taken
  · obtain ⟨i, hi2, hile, hifree⟩ := exists_free_index base taken
    have hex : ∃ n, cand base (n + 2) ∉ taken := ⟨i - 2, by
      have : i - 2 + 2 = i := by omega
      rw [this]; exact hifree⟩
    let j0 := Nat.find hex
    have hfound : cand base (j0 + 2) ∉ taken := Nat.find_spec hex
    have hle : j0 ≤ i - 2 := Nat.find_le (by
      have : i - 2 + 2 = i := by omega
      rw [this]; exact hifree)
    have hmin : ∀ m, m < j0 → cand base (m + 2) ∈ taken := fun m hm => by
      have := Nat.find_min hex hm
      simpa using this
    have hloop : allocLoop base taken (taken.length + 1) 2 = some (cand base (j0 + 2)) := by
      apply allocLoop_eq base taken (taken.length + 1) 2 (j0 + 2) (by omega) (by omega) hfound
      intro k hk1 hk2
      have : k - 2 < j0 := by omega
      have := hmin (k - 2) this
      have hk : k - 2 + 2 = k := by omega
      rwa [hk] at this
    refine ⟨j0 + 1, ?_, hfound, ?_⟩
    · simp only [allocate, allocOpt, if_pos hb, hloop, Option.getD_some, slugSeq]
    · intro j hj
      cases j with
      | zero => exact hb
      | succ m => exact hmin m (by omega)
  · exact ⟨0, by simp [allocate, allocOpt, if_neg hb, slugSeq], hb, fun j hj => by omega⟩

/-- The assigned slug is never one of the taken slugs. -/
lemma allocate_not_mem (base : String) (taken : List String) :
    allocate base taken ∉ taken := by
  obtain ⟨k, he, hfree, _⟩ := allocate_first_free base taken
  rw [he]; exact hfree

/-- The loop never exhausts its fuel: `taken.length + 1` probes after
the base always reach a free candidate. -/
lemma allocOpt_isSome (base : String) (taken : List String) :
    ∃ s, allocOpt base taken = some s ∧ allocate base taken = s := by
  by_cases hb : base ∈ taken
  · obtain ⟨i, hi2, hile, hifree⟩ := exists_free_index base taken
    have hex : ∃ n, cand base (n + 2) ∉ taken := ⟨i - 2, by
      have : i - 2 + 2 = i := by omega
      rw [this]; exact hifree⟩
    have hfound : cand base (Nat.find hex + 2) ∉ taken := Nat.find_spec hex
    have hle : Nat.find hex ≤ i - 2 := Nat.find_le (by
      have : i - 2 + 2 = i := by omega
      rw [this]; exact hifree)
    have hloop : allocLoop base taken (taken.length + 1) 2 = some (cand base (Nat.find hex + 2)) := by
      apply allocLoop_eq base taken (taken.length + 1) 2 (Nat.find hex + 2) (by omega) (by omega) hfound
      intro k hk1 hk2
      have hlt : k - 2 < Nat.find hex := by omega
      have := Nat.find_min hex hlt
      have hk : k - 2 + 2 = k := by omega
      rw [hk] at this
      simpa using this
    exact ⟨cand base (Nat.find hex + 2), by simp [allocOpt, if_pos hb, hloop], by
      simp [allocate, allocOpt, if_pos hb, hloop]⟩
  · exact ⟨base, by simp [allocOpt, if_neg hb], by simp [allocate, allocOpt, if_neg hb]⟩

/-- server.js line 217: `let base = slugify(title, ...) || "video"`.
`norm` is the output of the external `slugify` library for the title. -/
def baseToken (norm : String) : String := jsOr norm "video"

/-- Slug assignment of the server.js upload route for a title whose
normalized token is `norm`. -/
def assignSlug (norm : String) (taken : List String) : String :=
  allocate (baseToken norm) taken

/-- Slug assignment of the part_000 variant (line 218): `let slug =
slugify(title, ...)` with no fallback token. -/
def assignSlug_v2 (norm : String) (taken : List String) : String :=
  allocate norm taken

/-- The `checkAdmin` middleware: `const key = (req.query.key ||
req.body.key || req.get("x-admin-key") || "").trim(); if (ADMIN_KEY &&
key === ADMIN_KEY) return next();`.  Absent fields are `none`; a JS
`||` falls through on the empty string. -/
def checkAdmin (queryKey bodyKey headerKey : Option String) (adminKey : String) : Bool :=
  let key := jsTrim (jsOr (jsOr (queryKey.getD "") (bodyKey.getD "")) (headerKey.getD ""))
  adminKey ≠ "" && key == adminKey

/-- Admin routes respond `403` ("Forbidden: Admin key required") when
`checkAdmin` does not pass the request on. -/
def adminGuard (queryKey bodyKey headerKey : Option String) (adminKey : String) : Option Nat :=
  if checkAdmin queryKey bodyKey headerKey adminKey then none else some 403

/-- The row inserted by `insertVideo` (the metadata of one trailer). -/
structure Video where
  slug : String
  title : String
  description : String
  file_path : String
  url : String
  fullUrl : String
deriving DecidableEq, Repr

/-- `getVideoBySlug`: on a query error it logs and returns `null`;
otherwise it returns the single matching row or `null`.  The remote
failure mode is the `queryFails` flag. -/
def getVideoBySlug (rows : List Video) (queryFails : Bool) (slug : String) : Option Video :=
  if queryFails then none else rows.find? (fun v => v.slug == slug)

/-- One remote call made by a handler, in the order issued. -/
inductive StoreCall where
  | getBySlugCall (slug : String)
  | blobPut (path : String)
  | insertRow (v : Video)
  | deleteRow (slug : String)
  | blobRemove (path : String)
deriving DecidableEq, Repr

/-- The multer `fileFilter`/`limits` configuration sees only the
declared MIME type and the byte size of the file part. -/
structure UpFile where
  mimetype : String
  size : Nat
deriving DecidableEq, Repr

/-- An `/admin/upload` request body: `title`, `description`, `fullUrl`
form fields (absent is `none`), the normalized token the external
`slugify` library produces for the title, and the file part. -/
structure UploadReq where
  title : Option String
  description : Option String
  fullUrl : Option String
  normTitle : String
  file : Option UpFile
deriving Repr

/-- The multer MIME allow-list of `fileFilter`. -/
def allowedMimes : List String := ["video/mp4", "video/webm", "video/ogg"]

/-- The multer `limits.fileSize` ceiling: `1024 * 1024 * 300`. -/
def MAX_FILE_SIZE : Nat := 1024 * 1024 * 300

/-- The multer layer, run before the route handler whenever a file part
is present; `some msg` is a rejection, on which the handler never
runs. -/
def multerCheck (f : UpFile) : Option String :=
  if f.mimetype ∉ allowedMimes then some "Format video harus mp4/webm/ogg"
  else if MAX_FILE_SIZE < f.size then some "File too large"
  else none

/-- Result of an `/admin/upload` request: a multer-layer rejection, the
handler catch branch (`res.status(400)`), or the success redirect. -/
inductive UploadOutcome where
  | middlewareError (msg : String)
  | badRequest (msg : String)
  | redirect (loc : String)
deriving DecidableEq, Repr

/-- The candidates the loop probes with `getVideoBySlug`, in order. -/
def probeLoop (base : String) (taken : List String) : Nat → Nat → List String
  | 0, _ => []
  | f + 1, i =>
    if cand base i ∈ taken then cand base i :: probeLoop base taken f (i + 1)
    else [cand base i]

/-- All existence probes the slug loop issues. -/
def probes (base : String) (taken : List String) : List String :=
  if base ∈ taken then base :: probeLoop base taken (taken.length + 1) 2 else [base]

/-- The `/admin/upload` handler body (the storage-failure branches of
the blob upload and the row insert are not needed by any claim and are
not modelled): validate title and file, assign the slug, push the blob,
insert the row, redirect.  `path` and `publicUrl` stand for the
timestamped storage path and its public URL. -/
def uploadHandler (db : List Video) (req : UploadReq) (path publicUrl : String) :
    UploadOutcome × List StoreCall :=
  if req.title.getD "" = "" ∨ req.file.isNone then
    (.badRequest "Judul & file wajib.", [])
  else
    let taken := db.map Video.slug
    let base := baseToken req.normTitle
    let slug := allocate base taken
    let v : Video :=
      ⟨slug, jsTrim (req.title.getD ""), jsTrim (req.description.getD ""),
        path, publicUrl, jsTrim (req.fullUrl.getD "")⟩
    (.redirect "/admin", (probes base taken).map .getBySlugCall ++ [.blobPut path, .insertRow v])

/-- The whole `/admin/upload` route: multer first (only when a file
part is present), then the handler. -/
def uploadRoute (db : List Video) (req : UploadReq) (path publicUrl : String) :
    UploadOutcome × List StoreCall :=
  match req.file with
  | some f =>
    match multerCheck f with
    | some msg => (.middlewareError msg, [])
    | none => uploadHandler db req path publicUrl
  | none => uploadHandler db req path publicUrl

/-- Result of an `/admin/delete/:slug` request. -/
inductive DeleteOutcome where
  | redirect (loc : String)
  | badRequest (msg : String)
deriving DecidableEq, Repr

/-- `deleteVideoBySlug`: deletes the matching rows and returns
(`maybeSingle`) the removed row; a query error (`dbFail`) throws. -/
def deleteVideoBySlug (db : List Video) (dbFail : Bool) (slug : String) :
    Except String (Option Video × List Video) :=
  if dbFail then .error "delete failed"
  else .ok (db.find? (fun v => v.slug == slug), db.filter (fun v => v.slug != slug))

/-- The `/admin/delete/:slug` route: delete the row first; when a row
was removed, best-effort remove its blob — `.catch(() => {})` swallows
a blob-store failure, so `blobFail` cannot influence the outcome. -/
def deleteRoute (db : List Video) (slug : String) (dbFail blobFail : Bool) :
    DeleteOutcome × List StoreCall × List Video :=
  match deleteVideoBySlug db dbFail slug with
  | .error _ => (.badRequest "Gagal hapus", [.deleteRow slug], db)
  | .ok (some v, rest) =>
    (.redirect "/admin", [.deleteRow slug, .blobRemove v.file_path], rest)
  | .ok (none, rest) => (.redirect "/admin", [.deleteRow slug], rest)

/-- A row as the `videos` table materialises it: the server-assigned
`id` and `created_at` columns are what the two orderings read. -/
structure DbRow where
  id : Nat
  createdAt : Nat
  slug : String
deriving DecidableEq, Repr

/-- Insertion into a descending-ordered list by `key`. -/
def insertDesc (key : DbRow → Nat) (r : DbRow) : List DbRow → List DbRow
  | [] => [r]
  | x :: xs => if key x ≤ key r then r :: x :: xs else x :: insertDesc key r xs

/-- Descending sort by `key` (the `ascending: false` ordering). -/
def sortDesc (key : DbRow → Nat) : List DbRow → List DbRow
  | [] => []
  | x :: xs => insertDesc key x (sortDesc key xs)

/-- The `videos` table of one deployment; `hasCreatedAt` records
whether its schema has the creation-timestamp column. -/
structure VideosTable where
  rows : List DbRow
  hasCreatedAt : Bool
deriving Repr

/-- Models `await supabase.from("videos").select("*").order(col,
{ ascending: false })`: the client resolves with a data/error pair and
never rejects, so a surrounding try/catch cannot observe a query
failure. -/
def sbOrderQuery (t : VideosTable) (col : String) : Option (List DbRow) × Option String :=
  if col = "id" then (some (sortDesc DbRow.id t.rows), none)
  else if (col = "created_at" ∨ col = "createdAt") ∧ t.hasCreatedAt then
    (some (sortDesc DbRow.createdAt t.rows), none)
  else (none, some "column does not exist")

/-- The try block of `readVideos` in server.js: `const { data } = await
…order("created_at"…); return data || [];`.  The await resolves with
the pair and never throws, so the block itself never errors. -/
def readVideosTry (t : VideosTable) : Except String (List DbRow) :=
  let r := sbOrderQuery t "created_at"
  .ok (r.1.getD [])

/-- server.js `readVideos`: the try block, with the `order("id")`
fallback in the catch branch. -/
def readVideos (t : VideosTable) : List DbRow :=
  match readVideosTry t with
  | .ok v => v
  | .error _ =>
    let r := sbOrderQuery t "id"
    r.1.getD []

/-- part_000 `readVideos`: order by `createdAt`; on `!error && data`
return it, otherwise re-query ordered by `id`, returning `[]` when
that errors as well. -/
def readVideos_v2 (t : VideosTable) : List DbRow :=
  match sbOrderQuery t "createdAt" with
  | (some d, none) => d
  | _ =>
    match sbOrderQuery t "id" with
    | (_, some _) => []
    | (d, none) => d.getD []

/-- JS `s.startsWith(t)` on the character lists. -/
def jsStartsWith (s t : String) : Bool := t.data.isPrefixOf s.data

/-- JS `s.endsWith(t)` on the character lists. -/
def jsEndsWith (s t : String) : Bool := t.data.isSuffixOf s.data

/-- JS `s.slice(1)`. -/
def jsSlice1 (s : String) : String := ⟨s.data.drop 1⟩

/-- JS `s.toLowerCase()` over the ASCII range the host names use. -/
def jsToLower (s : String) : String := ⟨s.data.map Char.toLower⟩

/-- JS `s.split(":")[0]`: everything before the first colon. -/
def jsBeforeColon (s : String) : String := ⟨s.data.takeWhile (fun c => c ≠ ':')⟩

/-- The `allowHost` predicate of server.js: some configured pattern
matches, a `*.`-pattern by `host.endsWith(p.slice(1))`, any other by
`host === p`. -/
def allowHost (allow : List String) (host : String) : Bool :=
  allow.any (fun p => if jsStartsWith p "*." then jsEndsWith host (jsSlice1 p) else host == p)

/-- The effective host of a request: forwarded-host header when
present (JS `||`, empty is falsy), else the host header, with the port
stripped and lowercased. -/
def effectiveHost (forwardedHost hostHeader : Option String) : String :=
  jsToLower (jsBeforeColon (jsOr (forwardedHost.getD "") (hostHeader.getD "")))

/-- The host-filter middleware in allow-list mode: pass the request on,
or answer `403` ("Forbidden host"). -/
def hostFilter (allow : List String) (forwardedHost hostHeader : Option String) : Option Nat :=
  if allowHost allow (effectiveHost forwardedHost hostHeader) then none else some 403

/-- One admin operation, executed sequentially against the store. -/
inductive AdminOp where
  | upload (normTitle title description fullUrl path url : String)
  | delete (slug : String)

/-- Effect of one admin operation on the `videos` table: an upload
assigns a fresh slug with the loop and inserts one row; a delete
removes the rows of the given slug.  Rows are never updated. -/
def applyOp (db : List Video) : AdminOp → List Video
  | .upload norm title desc fu path url =>
    ⟨allocate (baseToken norm) (db.map Video.slug),
      jsTrim title, jsTrim desc, path, url, jsTrim fu⟩ :: db
  | .delete s => db.filter (fun v => v.slug != s)

/-- Sequential execution of admin operations. -/
def runOps (db : List Video) : List AdminOp → List Video
  | [] => db
  | op :: ops => runOps (applyOp db op) ops

lemma cand_ne_empty (base : String) (i : Nat) : cand base i ≠ "" := by
  intro h
  have hd := congrArg String.data h
  simp only [cand, String.data_append, List.append_assoc] at hd
  rcases List.append_eq_nil.mp hd with ⟨h1, h2⟩
  simp at h2

lemma slugSeq_video_ne_empty (k : Nat) : slugSeq "video" k ≠ "" := by
  cases k with
  | zero => decide
  | succ m => exact cand_ne_empty "video" (m + 2)

/-- C1: the slug allocator returns the first unused candidate of the
sequence base, base-2, base-3, …: in general the assigned slug is the
first element of the probe sequence not in the taken set, and in
particular when the existence check reports base and base-2 as taken
and base-3 as free the loop returns base-3. -/
theorem upload_slug_first_unused :
    (∀ (base : String) (taken : List String),
      ∃ k, allocate base taken = slugSeq base k ∧ slugSeq base k ∉ taken ∧
        ∀ j, j < k → slugSeq base j ∈ taken) ∧
    (∀ (base : String) (taken : List String),
      base ∈ taken → cand base 2 ∈ taken → cand base 3 ∉ taken →
        allocate base taken = cand base 3) := by
  constructor
  · exact allocate_first_free
  · intro base taken h1 h2 h3
    obtain ⟨k, he, hfree, hmin⟩ := allocate_first_free base taken
    rcases k with _ | _ | _ | n
    · exact absurd h1 hfree
    · exact absurd h2 hfree
    · exact he
    · exact absurd (hmin 2 (by omega)) h3

/-- Witness for C1 at the concrete store containing base and base-2. -/
theorem upload_slug_first_unused_witness :
    ("base" : String) ∈ ["base", "base-2"] ∧
    cand "base" 2 ∈ ["base", "base-2"] ∧
    cand "base" 3 ∉ (["base", "base-2"] : List String) ∧
    allocate "base" ["base", "base-2"] = cand "base" 3 :=
  ⟨by decide, by decide, by decide,
    upload_slug_first_unused.2 "base" ["base", "base-2"] (by decide) (by decide) (by decide)⟩

/-- C10: the slug loop terminates for every base token and every
deterministic existence check over a fixed finite set of taken slugs:
with `taken.length + 1` probes after the base the bounded loop already
returns a slug — it never exhausts its fuel. -/
theorem slug_loop_terminates :
    ∀ (base : String) (taken : List String),
      ∃ s, allocOpt base taken = some s ∧ allocate base taken = s :=
  allocOpt_isSome

/-- C3 counterexample: the part_000 variant applies no fallback token,
so a title whose normalization is empty is assigned the empty slug,
not "video". -/
theorem empty_token_no_fallback_v2 :
    assignSlug_v2 "" [] = "" ∧ assignSlug_v2 "" [] ≠ "video" := by
  constructor <;> decide

/-- C3 (amended): in server.js the fallback applies — for every title
normalizing to the empty token the allocator draws from the sequence
video, video-2, video-3, …, returns the first unused element, and
never returns an empty slug; the part_000 variant lacks the fallback. -/
theorem empty_title_fallback_server :
    ∀ taken : List String,
      (∃ k, assignSlug "" taken = slugSeq "video" k ∧ slugSeq "video" k ∉ taken ∧
        ∀ j, j < k → slugSeq "video" j ∈ taken) ∧
      assignSlug "" taken ≠ "" := by
  intro taken
  have hb : assignSlug "" taken = allocate "video" taken := by
    simp [assignSlug, baseToken, jsOr]
  constructor
  · rw [hb]; exact allocate_first_free "video" taken
  · obtain ⟨k, he, _, _⟩ := allocate_first_free "video" taken
    rw [hb, he]
    exact slugSeq_video_ne_empty k

/-- C2 counterexample: a correct admin key in the x-admin-key header
does not suffice when the query parameter holds a non-empty wrong
value — the guard uses the query value and denies. -/
theorem admin_key_precedence_counterexample :
    checkAdmin (some "wrong") none (some "secret") "secret" = false := by decide

/-- C2 (amended): the guard allows a request iff the configured key is
non-empty and the effective supplied key — the first non-empty value
among query parameter, body field and header, in that order — equals
it after trimming; all single-source spec examples hold, and the
routes answer 403 exactly when the guard denies. -/
theorem admin_key_guard_amended :
    (∀ (q b h : Option String) (k : String),
      checkAdmin q b h k = true ↔
        k ≠ "" ∧ jsTrim (jsOr (jsOr (q.getD "") (b.getD "")) (h.getD "")) = k) ∧
    checkAdmin (some "") none none "secret" = false ∧
    checkAdmin (some "secret") none none "" = false ∧
    checkAdmin (some "secret") none none "secret" = true ∧
    checkAdmin (some " secret ") none none "secret" = true ∧
    checkAdmin none (some "secret") none "secret" = true ∧
    checkAdmin none none (some "secret") "secret" = true ∧
    (∀ (q b h : Option String) (k : String),
      adminGuard q b h k = some 403 ↔ checkAdmin q b h k = false) := by
  refine ⟨?_, by decide, by decide, by decide, by decide, by decide, by decide, ?_⟩
  · intro q b h k
    simp [checkAdmin]
  · intro q b h k
    cases hc : checkAdmin q b h k <;> simp [adminGuard, hc]

/-- A sample stored record. -/
def exVideo : Video := ⟨"present", "t", "d", "trailers/1_present.mp4", "u", ""⟩

/-- C4 counterexample: a transport/query failure and an absent slug
give getVideoBySlug the same outcome (null), so the two are not
distinct for any caller. -/
theorem absent_vs_error_counterexample :
    getVideoBySlug [exVideo] true "missing" = getVideoBySlug [exVideo] false "missing" ∧
    getVideoBySlug [exVideo] true "missing" = none := by
  constructor <;> decide

/-- C4 (amended): a never-inserted slug yields an absent result (null)
without an error being raised, but a transport/query failure also
yields null — the error is only logged, so absence and failure are the
same outcome for the caller. -/
theorem getBySlug_absent_amended :
    (∀ (rows : List Video) (slug : String),
      (∀ v ∈ rows, v.slug ≠ slug) → getVideoBySlug rows false slug = none) ∧
    (∀ (rows : List Video) (slug : String), getVideoBySlug rows true slug = none) := by
  constructor
  · intro rows slug h
    simp only [getVideoBySlug, Bool.false_eq_true, if_false]
    rw [List.find?_eq_none]
    intro v hv
    simpa using h v hv
  · intro rows slug
    rfl

/-- Witness for C4 at a store that does not contain the probed slug. -/
theorem getBySlug_absent_witness :
    (∀ v ∈ [exVideo], v.slug ≠ "missing") ∧
    getVideoBySlug [exVideo] false "missing" = none :=
  ⟨by decide, getBySlug_absent_amended.1 [exVideo] "missing" (by decide)⟩

/-- A request carrying an image/png file part. -/
def pngReq : UploadReq :=
  ⟨some "My Trailer!", none, none, "my-trailer", some ⟨"image/png", 5⟩⟩

/-- The HTTP status the client observes for an upload outcome.  A
multer rejection propagates to the framework default error handler —
neither source variant registers an error-handling middleware, and the
`fileFilter`/`limits` errors carry no status of their own — which
answers 500; the handler catch is `res.status(400)`; the success path
is the redirect. -/
def uploadStatus : UploadOutcome → Option Nat
  | .middlewareError _ => some 500
  | .badRequest _ => some 400
  | .redirect _ => none

/-- C5 counterexample: an image/png upload is rejected by the multer
layer whose error reaches the framework default error handler, so the
client observes HTTP 500, not the HTTP 400 the claim asserts. -/
theorem upload_png_status_counterexample :
    uploadStatus (uploadRoute [] pngReq "p" "u").1 = some 500 ∧
    uploadStatus (uploadRoute [] pngReq "p" "u").1 ≠ some 400 := by
  constructor <;> decide

/-- C5 (amended): the upload pipeline rejects every request with a
missing title, a missing file part, a declared content type outside
the fixed allow-list, or a size above 300 MiB.  The missing
title/file case is the handler rejection with HTTP 400; a disallowed
MIME type (such as image/png) and an oversize file are rejected by the
multer layer before any record-store or blob-store call is made, but
that rejection reaches the framework default error handler and is
observed as HTTP 500, not 400. -/
theorem upload_validation_rejects :
    (∀ (db : List Video) (req : UploadReq) (path url : String) (f : UpFile),
      req.file = some f → f.mimetype ∉ allowedMimes →
        uploadRoute db req path url =
          (.middlewareError "Format video harus mp4/webm/ogg", [])) ∧
    (∀ (db : List Video) (req : UploadReq) (path url : String) (f : UpFile),
      req.file = some f → f.mimetype ∈ allowedMimes → MAX_FILE_SIZE < f.size →
        uploadRoute db req path url = (.middlewareError "File too large", [])) ∧
    (∀ (db : List Video) (req : UploadReq) (path url : String),
      (req.title.getD "" = "" ∨ req.file = none) →
      (∀ f, req.file = some f → multerCheck f = none) →
        uploadRoute db req path url = (.badRequest "Judul & file wajib.", [])) ∧
    (∀ msg, uploadStatus (.middlewareError msg) = some 500) ∧
    (∀ msg, uploadStatus (.badRequest msg) = some 400) := by
  refine ⟨?_, ?_, ?_, fun msg => rfl, fun msg => rfl⟩
  · intro db req path url f hf hmime
    simp [uploadRoute, hf, multerCheck, hmime]
  · intro db req path url f hf hmime hsize
    simp [uploadRoute, hf, multerCheck, hmime, hsize]
  · intro db req path url htitle hmul
    cases hf : req.file with
    | none =>
      have ht : req.title.getD "" = "" ∨ req.file.isNone = true := by
        rcases htitle with h | h
        · exact Or.inl h
        · exact Or.inr (by simp [h])
      simp [uploadRoute, hf, uploadHandler, ht, hf]
    | some f =>
      have ht : req.title.getD "" = "" := by
        rcases htitle with h | h
        · exact h
        · rw [h] at hf; cases hf
      simp [uploadRoute, hf, hmul f hf, uploadHandler, ht]

/-- Witness for C5: the png upload is rejected with no store call. -/
theorem upload_validation_witness :
    pngReq.file = some ⟨"image/png", 5⟩ ∧
    ("image/png" : String) ∉ allowedMimes ∧
    uploadRoute [] pngReq "p" "u" =
      (.middlewareError "Format video harus mp4/webm/ogg", []) :=
  ⟨rfl, by decide,
    upload_validation_rejects.1 [] pngReq "p" "u" ⟨"image/png", 5⟩ rfl (by decide)⟩

/-- C6: deleting an existing slug removes the row first and then
best-effort removes the blob; once the row delete succeeds the route
reports the redirect, and a blob-store failure never changes the
result. -/
theorem delete_row_first_blob_best_effort :
    ∀ (db : List Video) (slug : String) (blobFail : Bool) (v : Video),
      v ∈ db → v.slug = slug →
        (deleteRoute db slug false blobFail).1 = .redirect "/admin" ∧
        (∃ w, w ∈ db ∧ w.slug = slug ∧
          (deleteRoute db slug false blobFail).2.1 =
            [.deleteRow slug, .blobRemove w.file_path]) ∧
        (∀ b1 b2 : Bool, deleteRoute db slug false b1 = deleteRoute db slug false b2) := by
  intro db slug blobFail v hv hs
  have hfind : ∃ w, db.find? (fun x => x.slug == slug) = some w := by
    cases hf : db.find? (fun x => x.slug == slug) with
    | none =>
      have := List.find?_eq_none.mp hf v hv
      simp [hs] at this
    | some w => exact ⟨w, rfl⟩
  obtain ⟨w, hw⟩ := hfind
  have hws : w.slug = slug := by
    have := List.find?_some hw
    simpa using this
  have hwmem : w ∈ db := List.mem_of_find?_eq_some hw
  refine ⟨?_, ⟨w, hwmem, hws, ?_⟩, ?_⟩
  · simp [deleteRoute, deleteVideoBySlug, hw]
  · simp [deleteRoute, deleteVideoBySlug, hw]
  · intro b1 b2; rfl

/-- Witness for C6: deleting the stored sample row redirects even
though the blob removal fails. -/
theorem delete_row_first_witness :
    exVideo ∈ [exVideo] ∧ exVideo.slug = "present" ∧
    ((deleteRoute [exVideo] "present" false true).1 = .redirect "/admin" ∧
      (∃ w, w ∈ [exVideo] ∧ w.slug = "present" ∧
        (deleteRoute [exVideo] "present" false true).2.1 =
          [.deleteRow "present", .blobRemove w.file_path]) ∧
      (∀ b1 b2 : Bool,
        deleteRoute [exVideo] "present" false b1 = deleteRoute [exVideo] "present" false b2)) :=
  ⟨by decide, rfl,
    delete_row_first_blob_best_effort [exVideo] "present" true exVideo (by decide) rfl⟩

/-- A one-row table whose schema lacks the created_at column. -/
def exTable : VideosTable := ⟨[⟨1, 5, "a"⟩], false⟩

/-- C7: server.js readVideos cannot fall back — the supabase client
resolves a query error (it does not throw), so the catch branch with
the id ordering is unreachable and a failing created_at ordering
yields the empty list instead of the id-ordered rows; the part_000
variant checks the error value and does fall back. -/
theorem readVideos_fallback_bug :
    (∀ t : VideosTable, readVideos t =
      if t.hasCreatedAt then sortDesc DbRow.createdAt t.rows else []) ∧
    readVideos exTable = [] ∧ exTable.rows ≠ [] ∧
    (∀ t : VideosTable, readVideos_v2 t =
      if t.hasCreatedAt then sortDesc DbRow.createdAt t.rows else sortDesc DbRow.id t.rows) := by
  refine ⟨?_, by decide, by decide, ?_⟩
  · intro t
    cases h : t.hasCreatedAt <;> simp [readVideos, readVideosTry, sbOrderQuery, h]
  · intro t
    cases h : t.hasCreatedAt <;> simp [readVideos_v2, sbOrderQuery, h]

/-- C8: the host filter in allow-list mode uses the effective host
(forwarded-host header first, else the direct host header, lowercased
and with the port stripped); a star-dot pattern matches exactly the
hosts ending in dot-suffix, any other pattern matches only by exact
equality, and a non-matching request is answered 403. -/
theorem host_filter_allow_list :
    (∀ (allow : List String) (fwd hh : Option String),
      hostFilter allow fwd hh = some 403 ↔
        allowHost allow (effectiveHost fwd hh) = false) ∧
    (∀ (suffix host : String),
      allowHost ["*." ++ suffix] host = jsEndsWith host ("." ++ suffix)) ∧
    (∀ (p host : String), jsStartsWith p "*." = false →
      (allowHost [p] host = true ↔ host = p)) ∧
    allowHost ["*.example.com"] "cdn.example.com" = true ∧
    allowHost ["example.com"] "evil.com" = false ∧
    effectiveHost (some "CDN.Example.COM:8080") (some "direct.host") = "cdn.example.com" ∧
    effectiveHost none (some "Example.COM:3000") = "example.com" ∧
    hostFilter ["example.com"] none (some "evil.com") = some 403 := by
  refine ⟨?_, ?_, ?_, by decide, by decide, by decide, by decide, by decide⟩
  · intro allow fwd hh
    cases h : allowHost allow (effectiveHost fwd hh) <;> simp [hostFilter, h]
  · intro suffix host
    have hdata : ("*." ++ suffix).data = '*' :: '.' :: suffix.data := by
      rw [String.data_append]; rfl
    have hs : jsStartsWith ("*." ++ suffix) "*." = true := by
      simp only [jsStartsWith, hdata]
      exact List.isPrefixOf_iff_prefix.mpr ⟨suffix.data, rfl⟩
    have hd : jsSlice1 ("*." ++ suffix) = "." ++ suffix := by
      apply String.ext
      simp only [jsSlice1, hdata, List.drop_succ_cons, List.drop_zero, String.data_append]
      rfl
    simp [allowHost, hs, hd]
  · intro p host hp
    simp [allowHost, hp]

/-- Witness for C8: a plain pattern matches only by exact equality, at
the concrete pattern and host of the spec example. -/
theorem host_filter_allow_list_witness :
    jsStartsWith "example.com" "*." = false ∧
    (allowHost ["example.com"] "evil.com" = true ↔ ("evil.com" : String) = "example.com") :=
  ⟨by decide, host_filter_allow_list.2.2.1 "example.com" "evil.com" (by decide)⟩

lemma applyOp_slug_nodup (db : List Video) (op : AdminOp)
    (h : (db.map Video.slug).Nodup) : ((applyOp db op).map Video.slug).Nodup := by
  cases op with
  | upload norm title desc fu path url =>
    refine List.nodup_cons.mpr ⟨?_, h⟩
    exact allocate_not_mem (baseToken norm) (db.map Video.slug)
  | delete s =>
    exact List.Nodup.sublist ((List.filter_sublist db).map Video.slug) h

lemma runOps_slug_nodup (ops : List AdminOp) :
    ∀ db : List Video, (db.map Video.slug).Nodup →
      ((runOps db ops).map Video.slug).Nodup := by
  induction ops with
  | nil => intro db h; exact h
  | cons op ops ih => intro db h; exact ih _ (applyOp_slug_nodup db op h)

/-- C9: starting from a store with pairwise-distinct slugs, every
sequence of sequential upload and delete operations preserves slug
distinctness, and no step modifies an existing record: every record of
the next state is either an untouched record of the previous state or
the single freshly created record put in front of it. -/
theorem slug_unique_and_immutable :
    ∀ (db : List Video) (ops : List AdminOp),
      (db.map Video.slug).Nodup →
        ((runOps db ops).map Video.slug).Nodup ∧
        (∀ (d : List Video) (op : AdminOp) (v : Video),
          v ∈ applyOp d op → v ∈ d ∨ applyOp d op = v :: d) := by
  intro db ops h
  refine ⟨runOps_slug_nodup ops db h, ?_⟩
  intro d op v hv
  cases op with
  | upload norm title desc fu path url =>
    rcases List.mem_cons.mp hv with h1 | h2
    · right; subst h1; rfl
    · left; exact h2
  | delete s =>
    left; exact List.mem_of_mem_filter hv

/-- Two uploads normalizing to the same token, then one delete. -/
def exOps : List AdminOp :=
  [.upload "my-trailer" "My Trailer!" "" "" "p1" "u1",
   .upload "my-trailer" "My Trailer!" "" "" "p2" "u2",
   .delete "my-trailer"]

/-- Witness for C9 at the empty initial store and a concrete sequence
of colliding uploads and a delete. -/
theorem slug_unique_witness :
    (([] : List Video).map Video.slug).Nodup ∧
    (((runOps [] exOps).map Video.slug).Nodup ∧
      (∀ (d : List Video) (op : AdminOp) (v : Video),
        v ∈ applyOp d op → v ∈ d ∨ applyOp d op = v :: d)) :=
  ⟨by decide, slug_unique_and_immutable [] exOps (by decide)⟩

end VideoPortal
